import Mathlib

/-!
Verification development for the siml training/inference orchestration core.

The Python sources under `siml/` are shallowly embedded: machine floats are
modelled as exact rationals (`ℚ`), `numpy`/`torch` dense tensors as nested
lists, Python dicts as association lists, and functions that raise
`ValueError`/`KeyError` as functions into `Except String`.
-/

/-! ## IsoAMScaler (siml/preprocessing/scale_functions/isoam_scalar.py)

State fields follow `IsoAMScaler.__init__`; `transform` follows lines 48-53:
`if self.std_ == 0.: scale = 0. else: scale = (1 / self.std_); return data * scale`.
-/

structure IsoAMScaler where
  var_ : ℚ
  std_ : ℚ
  mean_square_ : ℚ
  n_ : Nat
  component_dim : Nat
deriving DecidableEq

/-- `IsoAMScaler.__init__(other_components)`: all accumulators start at zero and
`component_dim = len(other_components) + 1`; raises when `component_dim == 1`. -/
def mkIsoAMScaler (other_components : List String) : Except String IsoAMScaler :=
  let d := other_components.length + 1
  if d = 1 then
    .error "To use IsoAMScaler, feed other_components"
  else
    .ok { var_ := 0, std_ := 0, mean_square_ := 0, n_ := 0, component_dim := d }

/-- `IsoAMScaler.transform(data)`: scale is `0` when `std_ == 0`, else `1 / std_`;
the result is `data * scale`, elementwise over the array. -/
def IsoAMScaler.transform (s : IsoAMScaler) (data : List ℚ) : List ℚ :=
  let scale : ℚ := if s.std_ = 0 then 0 else 1 / s.std_
  data.map (fun x => x * scale)

/-! ## PreprocessConverter.lazy_read_files retry loop (siml/util.py lines 391-424)

`erroneous k` abstracts the outcome of the streaming fit attempt performed when
`retry_count = k` (the data files are reshuffled between attempts, so each
attempt's erroneous-state check is an independent boolean).  The function
returns the final `retry_count` on success.  Totality of this definition is the
termination property of the recursion in `lazy_read_files`.
-/

def PreprocessConverter.MAX_RETRY : Nat := 3

def lazy_read_files (erroneous : Nat → Bool) (retry_count : Nat) :
    Except String Nat :=
  if erroneous retry_count then
    if h : retry_count < PreprocessConverter.MAX_RETRY then
      lazy_read_files erroneous (retry_count + 1)
    else
      .error "Retry exhausted. Check the data."
  else
    .ok retry_count
termination_by PreprocessConverter.MAX_RETRY + 1 - retry_count
decreasing_by omega

/-! ## Trainer._update_setting_if_needed (siml/trainer.py lines 218-233,
siml/siml_manager.py lines 140-155; both bodies are identical)

The `if/elif/elif` chain is translated branch for branch.  The final branch
(raising when restart and pretrain are both set) is kept exactly where the
source places it: after the two branches that already caught `restart ≠ None`
and `pretrain ≠ None`.
-/

inductive UpdateAction
  | restartLoad (dir : String)
  | pretrainLoad (dir : String)
  | noop
deriving DecidableEq

def updateSettingIfNeeded (restart_directory pretrain_directory : Option String) :
    Except String UpdateAction :=
  match restart_directory with
  | some r => .ok (.restartLoad r)
  | none =>
    match pretrain_directory with
    | some p => .ok (.pretrainLoad p)
    | none =>
      if restart_directory.isSome ∧ pretrain_directory.isSome then
        .error
          "Restart directory and pretrain directory cannot be specified at the same time."
      else
        .ok .noop

/-! ## Checkpoint save and restart load (siml/trainer.py lines 403-412 and 259-270)

A checkpoint file is the dict passed to `torch.save`; values are tagged.
`dictGet` models Python dict indexing (`KeyError` on a missing key).
-/

inductive CkptVal
  | nat (n : Nat)
  | q (x : ℚ)
  | state (s : List (String × ℚ))
deriving DecidableEq

/-- The dict written by `log_training_results` (trainer.py lines 404-412):
keys `epoch`, `validation_loss`, `model_state_dict`, `optimizer_state_dict`. -/
def savedCheckpoint (epoch : Nat) (validation_loss : ℚ)
    (model_state optimizer_state : List (String × ℚ)) : List (String × CkptVal) :=
  [("epoch", .nat epoch),
   ("validation_loss", .q validation_loss),
   ("model_state_dict", .state model_state),
   ("optimizer_state_dict", .state optimizer_state)]

def dictGet (d : List (String × CkptVal)) (k : String) : Except String CkptVal :=
  match d.find? (fun kv => kv.1 == k) with
  | some kv => .ok kv.2
  | none => .error ("KeyError: " ++ k)

/-- `Trainer._load_restart_model_if_needed` body after the snapshot is loaded
(trainer.py lines 265-268): reads `model_state_dict`, `optimizer_state_dict`,
`epoch`, and then `loss` from the checkpoint dict, in source order. -/
def loadRestartCheckpoint (ckpt : List (String × CkptVal)) :
    Except String (CkptVal × CkptVal × CkptVal × CkptVal) :=
  match dictGet ckpt "model_state_dict" with
  | .error e => .error e
  | .ok ms =>
    match dictGet ckpt "optimizer_state_dict" with
    | .error e => .error e
    | .ok os =>
      match dictGet ckpt "epoch" with
      | .error e => .error e
      | .ok ep =>
        match dictGet ckpt "loss" with
        | .error e => .error e
        | .ok l => .ok (ms, os, ep, l)

/-! ## Pretrained snapshot loading (siml/trainer.py lines 246-255,
siml/siml_manager.py lines 168-177; identical bodies)

`zip(self.model.state_dict().keys(), checkpoint['model_state_dict'].values())`:
checkpoint tensors are assigned to live model keys by position. -/

def loadPretrainedStateDict (model_state ckpt_state : List (String × ℚ)) :
    Except String (List (String × ℚ)) :=
  if model_state.length ≠ ckpt_state.length then
    .error "Model parameter length invalid"
  else
    .ok ((model_state.map Prod.fst).zip (ckpt_state.map Prod.snd))

/-! ## Snapshot selection (siml/trainer.py lines 272-300, siml/siml_manager.py
lines 181-213)

A directory entry for a file matching the glob `snapshot_epoch_*`:
`epochNum` is the integer the regex `snapshot_epoch_(\d+)` extracts from the
file name, `ctime` is the file's `stat().st_ctime`.  Python's `max(xs, key=f)`
keeps the first element and replaces it only on a strictly greater key. -/

structure SnapshotFile where
  epochNum : Nat
  ctime : Int
deriving DecidableEq

def pyMaxBy (f : SnapshotFile → Int) (a : SnapshotFile) (l : List SnapshotFile) :
    SnapshotFile :=
  l.foldl (fun acc x => if f x > f acc then x else acc) a

/-- `Trainer._select_snapshot` with `method='latest'`:
`max(snapshots, key=lambda p: p.stat().st_ctime)`. -/
def trainer_select_latest (snaps : List SnapshotFile) (h : snaps ≠ []) : SnapshotFile :=
  match snaps, h with
  | a :: l, _ => pyMaxBy (fun s => s.ctime) a l

/-- `SimlManager._select_snapshot` with `method='latest'`:
`max(snapshots, key=lambda p: int(re.search(r'snapshot_epoch_(\d+)', str(p)).groups()[0]))`. -/
def manager_select_latest (snaps : List SnapshotFile) (h : snaps ≠ []) : SnapshotFile :=
  match snaps, h with
  | a :: l, _ => pyMaxBy (fun s => (s.epochNum : Int)) a l

/-! ## Trainer.train return value (siml/trainer.py lines 98-101)

After the run, the log file is read back and
`validation_loss = np.min(df['validation_loss'])` is returned.  A log row
carries the columns written by `log_training_results`. -/

structure LogRow where
  epoch : Nat
  train_loss : ℚ
  validation_loss : ℚ
  elapsed_time : ℚ
deriving DecidableEq

def npMin (x : ℚ) (xs : List ℚ) : ℚ := xs.foldl min x

/-- The value `Trainer.train` returns, as a function of the rows of `log.csv`. -/
def train_return (rows : List LogRow) (h : rows ≠ []) : ℚ :=
  match rows, h with
  | r :: rs, _ => npMin r.validation_loss (rs.map (fun x => x.validation_loss))

/-! ## CoreLossCalculator construction (siml/loss_calculators/loss_function.py
lines 82-94, 121-151)

`LossFn` stands for the loss-function objects stored in the table (the built-in
`functional.mse_loss`, or a user-supplied callable).  `dictUpdate` models
`dict.update`: existing keys are overwritten in place, new keys appended.
The list of assigned loss names is modelled from the spec: `ILossAssignment`
(module `loss_assignment.py` is not among the provided sources) maps each output
variable (or the `default` sentinel) to a loss-function identifier, and
`loss_names()` returns the assigned identifiers. -/

inductive LossFn
  | mse
  | user (id : Nat)
deriving DecidableEq

def dictUpdate (d u : List (String × LossFn)) : List (String × LossFn) :=
  let overridden := d.map (fun kv =>
    match u.find? (fun kv2 => kv2.1 == kv.1) with
    | some kv2 => kv2
    | none => kv)
  overridden ++ u.filter (fun kv2 => !(d.map Prod.fst).contains kv2.1)

/-- `CoreLossCalculator._create_loss_function_dict`: the built-in table
`{'mse': functional.mse_loss}` updated with the user dictionary when given. -/
def createLossFunctionDict (user_loss_function_dic : Option (List (String × LossFn))) :
    List (String × LossFn) :=
  match user_loss_function_dic with
  | none => [("mse", .mse)]
  | some u => dictUpdate [("mse", .mse)] u

/-- `CoreLossCalculator._check_loss_functions`: iterate the assigned loss names
and raise on the first one absent from the table's keys. -/
def checkLossFunctions (loss_names : List String) (table : List (String × LossFn)) :
    Except String Unit :=
  match loss_names with
  | [] => .ok ()
  | n :: ns =>
    if (table.map Prod.fst).contains n then checkLossFunctions ns table
    else .error ("Unknown loss function name: " ++ n)

/-- `CoreLossCalculator.__init__`: store the assignment, build the table, and
run `_check_loss_functions` before the constructor returns. -/
def mkCoreLossCalculator (loss_names : List String)
    (user_loss_function_dic : Option (List (String × LossFn))) :
    Except String (List String × List (String × LossFn)) :=
  let table := createLossFunctionDict user_loss_function_dic
  match checkLossFunctions loss_names table with
  | .error e => .error e
  | .ok _ => .ok (loss_names, table)

/-! ## Loss computation paths (siml/trainer.py lines 564-603,
siml/loss_calculators/loss_function.py lines 61-76)

A dense tensor of a padded time-series batch is a nested list
`time × dim1 × feature` of rationals.  In `Trainer._create_loss_function` the
middle dimension is the batch (`y_pred[:s[0], i_batch, :s[1]]`), and an
`original_shapes` entry is `(time_length, feature_count)`.  In
`LossCalculator.loss_function_time_with_padding` the middle dimension holds the
per-sample node slices (`torch.split(y_pred, list(original_shapes[:, 1]),
dim=1)`), and an entry is `(time_length, dim1_size)`.  `functional.mse_loss`
with its default mean reduction is the sum of squared differences over paired
entries divided by the number of entries, so for same-shaped tensors it equals
`mseLoss` of the flattened entry lists, and `y_pred.view(y.shape)` leaves the
flattened entry list unchanged. -/

abbrev Tensor3 := List (List (List ℚ))

def mseLoss (a b : List ℚ) : ℚ :=
  (((a.zip b).map fun p => (p.1 - p.2) ^ 2).sum) / (a.length : ℚ)

def flatten3 (t : Tensor3) : List ℚ := (t.map (fun mat => mat.flatten)).flatten

/-- trainer.py lines 576-577: `loss_core(y_pred.view(y.shape), y)`. -/
def loss_function_without_padding (y_pred y : Tensor3) : ℚ :=
  mseLoss (flatten3 y_pred) (flatten3 y)

/-- One summand of the `torch.cat` in trainer.py lines 580-585:
`y_pred[:s[0], i_batch, :s[1]].reshape(-1)`. -/
def timeSliceTrainer (t : Tensor3) (i : Nat) (s : Nat × Nat) : List ℚ :=
  ((t.take s.1).map (fun mat => (mat.getD i []).take s.2)).flatten

/-- trainer.py lines 579-586: concatenate the per-sample valid regions of both
tensors and apply `loss_core`. -/
def loss_function_time_with_padding (y_pred y : Tensor3)
    (original_shapes : List (Nat × Nat)) : ℚ :=
  mseLoss
    (((original_shapes.enum).map (fun p => timeSliceTrainer y_pred p.1 p.2)).flatten)
    (((original_shapes.enum).map (fun p => timeSliceTrainer y p.1 p.2)).flatten)

/-- Modelled from the spec: `util.VariableMask` (the class is absent from the
provided `util.py`) as configured by `LossCalculator.__init__` with
`output_skips=None`, `output_dims=None`, `output_is_dict=False`; per the spec
it produces the masked/sliced prediction/answer pair, and with no skips and no
dict output it returns the pair unchanged. -/
def variableMaskNoSkip (a b : List ℚ) : List ℚ × List ℚ := (a, b)

/-- `torch.split(t, sizes, dim=1)`: consecutive chunks of the middle
dimension. -/
def takeDim1 (t : Tensor3) (off len : Nat) : Tensor3 :=
  t.map (fun mat => (mat.drop off).take len)

def splitDim1Go (t : Tensor3) (off : Nat) : List Nat → List Tensor3
  | [] => []
  | n :: ns => takeDim1 t off n :: splitDim1Go t (off + n) ns

def splitDim1 (t : Tensor3) (sizes : List Nat) : List Tensor3 :=
  splitDim1Go t 0 sizes

/-- loss_function.py lines 64-76: split along `dim=1` by `original_shapes[:, 1]`,
truncate each sample to its `original_shapes[:, 0]` leading time steps, flatten
and concatenate, mask, then apply the core loss. -/
def LossCalculator_loss_function_time_with_padding (y_pred y : Tensor3)
    (original_shapes : List (Nat × Nat)) : ℚ :=
  let split_y_pred := splitDim1 y_pred (original_shapes.map Prod.snd)
  let concatenated_y_pred :=
    (((original_shapes.map Prod.fst).zip split_y_pred).map
      (fun p => flatten3 (p.2.take p.1))).flatten
  let split_y := splitDim1 y (original_shapes.map Prod.snd)
  let concatenated_y :=
    (((original_shapes.map Prod.fst).zip split_y).map
      (fun p => flatten3 (p.2.take p.1))).flatten
  let m := variableMaskNoSkip concatenated_y_pred concatenated_y
  mseLoss m.1 m.2

/-- loss_function.py lines 61-62:
`loss_core(*self.mask_function(y_pred.view(y.shape), y))`. -/
def LossCalculator_loss_function_without_padding (y_pred y : Tensor3) : ℚ :=
  let m := variableMaskNoSkip (flatten3 y_pred) (flatten3 y)
  mseLoss m.1 m.2

/-- `t` is a dense `T × N × F` tensor. -/
def Rect3 (T N F : Nat) (t : Tensor3) : Prop :=
  t.length = T ∧ ∀ mat ∈ t, mat.length = N ∧ ∀ row ∈ mat, row.length = F

instance (T N F : Nat) (t : Tensor3) : Decidable (Rect3 T N F t) := by
  unfold Rect3
  infer_instance

/-! ## Block-graph cycle detection

Modelled from the spec: the network graph builder module (`siml.networks`'s
`Network` class) is not among the provided sources — only block
implementations and `tests/test_networks.py`, which pins the error message,
are.  Spec §4.1: "build adjacency from `input_names`→`output_name` matches;
detect cycles via depth-first traversal with a three-color
(unvisited/in-progress/done) marker", message "Cycle found in the network";
the cycle check runs before the predecessor/successor and dangling-reference
validations, so a cyclic graph always fails with the cycle message.  In the
traversal below `gray` is the in-progress stack, `black` the done list (most
recently finished first); a block in neither is unvisited.  `ValueError` is
`Except.error`. -/

structure BlockSpec where
  name : String
  input_names : List String
  output_name : String
deriving DecidableEq

/-- The successors of the block named `u`: every block whose `input_names`
mention `u`'s `output_name`. -/
def succNames (specs : List BlockSpec) (u : String) : List String :=
  match specs.find? (fun b => b.name == u) with
  | none => []
  | some b =>
    (specs.filter (fun c => c.input_names.contains b.output_name)).map
      (fun c => c.name)

/-- Run `f` on each work item in turn, threading the done list, stopping at
the first error. -/
def visitStep (f : String → List String → Except String (List String)) :
    List String → List String → Except String (List String)
  | [], black => .ok black
  | v :: vs, black =>
    match f v black with
    | .error e => .error e
    | .ok b2 => visitStep f vs b2

/-- Depth-first visit of one block: done blocks are skipped, meeting an
in-progress block is the cycle error, otherwise the block's successors are
visited with the block pushed on the in-progress stack and the block is marked
done afterwards.  `fuel` bounds the recursion depth; exhausting it (impossible
from `checkNetworkCycle`, whose fuel exceeds the block count) also reports the
cycle error. -/
def visitBlock (specs : List BlockSpec) :
    Nat → String → List String → List String → Except String (List String)
  | 0, u, _gray, black =>
    if u ∈ black then .ok black else .error "Cycle found in the network"
  | fuel + 1, u, gray, black =>
    if u ∈ black then .ok black
    else if u ∈ gray then .error "Cycle found in the network"
    else
      match visitStep (fun v b => visitBlock specs fuel v (u :: gray) b)
          (succNames specs u) black with
      | .error e => .error e
      | .ok black2 => .ok (u :: black2)

/-- The cycle-detection phase of the graph build: visit every block. -/
def checkNetworkCycle (specs : List BlockSpec) : Except String (List String) :=
  visitStep (fun v b => visitBlock specs (specs.length + 1) v [] b)
    (specs.map (fun b => b.name)) []

/-- Producer→consumer adjacency: block `a`'s `output_name` occurs among block
`b`'s `input_names`. -/
def blockEdgeB (specs : List BlockSpec) (a b : String) : Bool :=
  specs.any (fun p => p.name == a &&
    specs.any (fun c => c.name == b && c.input_names.contains p.output_name))

def blockEdge (specs : List BlockSpec) (a b : String) : Prop :=
  blockEdgeB specs a b = true

/-- The done list is in reverse topological order: every block's successors
appear strictly later in the list. -/
def DarkSorted (specs : List BlockSpec) : List String → Prop
  | [] => True
  | u :: rest => (∀ v ∈ succNames specs u, v ∈ rest) ∧ DarkSorted specs rest

/-- Invariant of the traversal: no in-progress block is done, and the done
list is duplicate-free and reverse-topologically sorted. -/
def BlackInv (specs : List BlockSpec) (gray black : List String) : Prop :=
  (∀ g ∈ gray, g ∉ black) ∧ black.Nodup ∧ DarkSorted specs black

/-- A two-block cycle: `A` consumes `B`'s output and vice versa. -/
def cyclePairSpecs : List BlockSpec :=
  [{ name := "A", input_names := ["OUT_B"], output_name := "OUT_A" },
   { name := "B", input_names := ["OUT_A"], output_name := "OUT_B" }]

/-- Concrete snapshot directory where creation times run against epoch
numbers: the epoch-1 file was created later (ctime 10) than the epoch-2 file
(ctime 5), e.g. after a file copy or clock skew. -/
def ctimeDemoDir : List SnapshotFile := [⟨1, 10⟩, ⟨2, 5⟩]

/-! # Theorems -/

theorem strContains_iff (l : List String) (n : String) :
    l.contains n = true ↔ n ∈ l := List.elem_iff

theorem pyMaxBy_mem (f : SnapshotFile → Int) (a : SnapshotFile)
    (l : List SnapshotFile) : pyMaxBy f a l ∈ a :: l := by
  induction l generalizing a with
  | nil => simp [pyMaxBy]
  | cons b l ih =>
    have step : pyMaxBy f a (b :: l) = pyMaxBy f (if f b > f a then b else a) l := rfl
    rw [step]
    by_cases hb : f b > f a
    · rw [if_pos hb]
      exact List.mem_cons_of_mem _ (ih b)
    · rw [if_neg hb]
      have h := ih a
      rw [List.mem_cons] at h
      rcases h with h | h
      · rw [h]
        exact List.mem_cons_self _ _
      · exact List.mem_cons_of_mem _ (List.mem_cons_of_mem _ h)

theorem pyMaxBy_le (f : SnapshotFile → Int) (a : SnapshotFile)
    (l : List SnapshotFile) : ∀ x ∈ a :: l, f x ≤ f (pyMaxBy f a l) := by
  induction l generalizing a with
  | nil =>
    intro x hx
    rw [List.mem_cons] at hx
    rcases hx with rfl | hx
    · simp [pyMaxBy]
    · simp at hx
  | cons b l ih =>
    intro x hx
    have step : pyMaxBy f a (b :: l) = pyMaxBy f (if f b > f a then b else a) l := rfl
    rw [step]
    have hhead : f (if f b > f a then b else a) ≤
        f (pyMaxBy f (if f b > f a then b else a) l) :=
      ih (if f b > f a then b else a) _ (List.mem_cons_self _ _)
    rw [List.mem_cons] at hx
    rcases hx with rfl | hx
    · refine le_trans ?_ hhead
      by_cases hb : f b > f x
      · rw [if_pos hb]; omega
      · rw [if_neg hb]
    · rw [List.mem_cons] at hx
      rcases hx with rfl | hx
      · refine le_trans ?_ hhead
        by_cases hb : f x > f a
        · rw [if_pos hb]
        · rw [if_neg hb]; omega
      · exact ih (if f b > f a then b else a) x (List.mem_cons_of_mem _ hx)

theorem npMin_spec (x : ℚ) (xs : List ℚ) :
    npMin x xs ∈ x :: xs ∧ ∀ y ∈ x :: xs, npMin x xs ≤ y := by
  induction xs generalizing x with
  | nil =>
    refine ⟨by simp [npMin], ?_⟩
    intro y hy
    rw [List.mem_cons] at hy
    rcases hy with rfl | hy
    · simp [npMin]
    · simp at hy
  | cons y ys ih =>
    have step : npMin x (y :: ys) = npMin (min x y) ys := rfl
    rw [step]
    obtain ⟨ihmem, ihle⟩ := ih (min x y)
    have hhead : npMin (min x y) ys ≤ min x y := ihle _ (List.mem_cons_self _ _)
    constructor
    · rw [List.mem_cons] at ihmem
      rcases ihmem with h | h
      · rcases min_choice x y with hc | hc
        · exact List.mem_cons.mpr (Or.inl (h.trans hc))
        · exact List.mem_cons_of_mem _ (List.mem_cons.mpr (Or.inl (h.trans hc)))
      · exact List.mem_cons_of_mem _ (List.mem_cons_of_mem _ h)
    · intro z hz
      rw [List.mem_cons] at hz
      rcases hz with rfl | hz
      · exact le_trans hhead (min_le_left _ _)
      · rw [List.mem_cons] at hz
        rcases hz with rfl | hz
        · exact le_trans hhead (min_le_right _ _)
        · exact ihle z (List.mem_cons_of_mem _ hz)

theorem checkLossFunctions_ok_iff (ns : List String) (table : List (String × LossFn)) :
    checkLossFunctions ns table = .ok () ↔ ∀ n ∈ ns, n ∈ table.map Prod.fst := by
  induction ns with
  | nil => simp [checkLossFunctions]
  | cons n ns ih =>
    by_cases hmem : n ∈ table.map Prod.fst
    · have hc : (table.map Prod.fst).contains n = true :=
        (strContains_iff _ _).mpr hmem
      have hstep : checkLossFunctions (n :: ns) table = checkLossFunctions ns table := by
        show (if (table.map Prod.fst).contains n = true then checkLossFunctions ns table
          else Except.error ("Unknown loss function name: " ++ n)) = checkLossFunctions ns table
        rw [if_pos hc]
      rw [hstep, ih]
      constructor
      · intro hall m hm
        rcases List.mem_cons.mp hm with rfl | hm'
        · exact hmem
        · exact hall m hm'
      · intro hall m hm
        exact hall m (List.mem_cons_of_mem _ hm)
    · have hc : (table.map Prod.fst).contains n = false := by
        rw [Bool.eq_false_iff]
        intro hcc
        exact hmem ((strContains_iff _ _).mp hcc)
      have hstep : checkLossFunctions (n :: ns) table =
          .error ("Unknown loss function name: " ++ n) := by
        show (if (table.map Prod.fst).contains n = true then checkLossFunctions ns table
          else Except.error ("Unknown loss function name: " ++ n)) =
          Except.error ("Unknown loss function name: " ++ n)
        rw [if_neg (by rw [hc]; simp)]
      rw [hstep]
      constructor
      · intro h
        exact absurd h (by simp)
      · intro hall
        exact absurd (hall n (List.mem_cons_self _ _)) hmem

theorem checkLossFunctions_error (ns : List String) (table : List (String × LossFn))
    (hmiss : ∃ n ∈ ns, n ∉ table.map Prod.fst) :
    ∃ n ∈ ns, n ∉ table.map Prod.fst ∧
      checkLossFunctions ns table = .error ("Unknown loss function name: " ++ n) := by
  induction ns with
  | nil => simp at hmiss
  | cons n ns ih =>
    by_cases hmem : n ∈ table.map Prod.fst
    · have hc : (table.map Prod.fst).contains n = true :=
        (strContains_iff _ _).mpr hmem
      have hstep : checkLossFunctions (n :: ns) table = checkLossFunctions ns table := by
        show (if (table.map Prod.fst).contains n = true then checkLossFunctions ns table
          else Except.error ("Unknown loss function name: " ++ n)) = checkLossFunctions ns table
        rw [if_pos hc]
      obtain ⟨m, hm, hmiss'⟩ := hmiss
      rcases List.mem_cons.mp hm with rfl | hm'
      · exact absurd hmem hmiss'
      · obtain ⟨m', hm', hmiss'', herr⟩ := ih ⟨m, hm', hmiss'⟩
        exact ⟨m', List.mem_cons_of_mem _ hm', hmiss'', by rw [hstep]; exact herr⟩
    · have hc : (table.map Prod.fst).contains n = false := by
        rw [Bool.eq_false_iff]
        intro hcc
        exact hmem ((strContains_iff _ _).mp hcc)
      have hstep : checkLossFunctions (n :: ns) table =
          .error ("Unknown loss function name: " ++ n) := by
        show (if (table.map Prod.fst).contains n = true then checkLossFunctions ns table
          else Except.error ("Unknown loss function name: " ++ n)) =
          Except.error ("Unknown loss function name: " ++ n)
        rw [if_neg (by rw [hc]; simp)]
      exact ⟨n, List.mem_cons_self _ _, hmem, hstep⟩

/-- C3: the checkpoint record written at a logging epoch round-trips its model
state, optimizer state and epoch, but it contains no `train_loss` entry, and
`_load_restart_model_if_needed` reads the key `loss`, which
`log_training_results` never writes, so the restore raises `KeyError: loss`.
This contradicts the specified checkpoint round trip (code bug: the save
writes `validation_loss` while the load reads `loss`). -/
theorem restart_checkpoint_key_bug (e : Nat) (vl : ℚ) (ms os : List (String × ℚ)) :
    dictGet (savedCheckpoint e vl ms os) "model_state_dict" = .ok (.state ms) ∧
    dictGet (savedCheckpoint e vl ms os) "optimizer_state_dict" = .ok (.state os) ∧
    dictGet (savedCheckpoint e vl ms os) "epoch" = .ok (.nat e) ∧
    ((savedCheckpoint e vl ms os).map Prod.fst).contains "train_loss" = false ∧
    loadRestartCheckpoint (savedCheckpoint e vl ms os) = .error "KeyError: loss" := by
  refine ⟨rfl, rfl, rfl, rfl, rfl⟩

/-- C4: when both a restart directory and a pretrain directory are specified,
`_update_setting_if_needed` (trainer.py and siml_manager.py alike) silently
takes the restart branch: the `ValueError` guarding the combination sits in an
`elif` arm that can never be reached, so no configuration error is raised.
This contradicts the specified mutual-exclusion failure (code bug: dead
guard). -/
theorem restart_pretrain_conflict_unchecked (r p : String) :
    updateSettingIfNeeded (some r) (some p) = .ok (.restartLoad r) := rfl

/-- C9: `_load_pretrained_model_if_needed` assigns the i-th checkpoint tensor
to the i-th live model parameter key by position: when entry counts match the
load succeeds with the model's own keys zipped against the checkpoint's
values — the checkpoint's key names are ignored entirely, so two checkpoints
with the same values in the same order load identically whatever their names —
and when the counts differ it raises `ValueError('Model parameter length
invalid')`. -/
theorem pretrained_load_positional (model_state c1 c2 : List (String × ℚ)) :
    (model_state.length = c1.length →
      loadPretrainedStateDict model_state c1 =
        .ok ((model_state.map Prod.fst).zip (c1.map Prod.snd)) ∧
      (c1.map Prod.snd = c2.map Prod.snd →
        loadPretrainedStateDict model_state c1 =
          loadPretrainedStateDict model_state c2)) ∧
    (model_state.length ≠ c1.length →
      loadPretrainedStateDict model_state c1 = .error "Model parameter length invalid") := by
  constructor
  · intro hlen
    constructor
    · simp [loadPretrainedStateDict, hlen]
    · intro hvals
      have hlen2 : c1.length = c2.length := by
        have h := congrArg List.length hvals
        simpa using h
      have e1 : loadPretrainedStateDict model_state c1 =
          .ok ((model_state.map Prod.fst).zip (c1.map Prod.snd)) := by
        simp [loadPretrainedStateDict, hlen]
      have e2 : loadPretrainedStateDict model_state c2 =
          .ok ((model_state.map Prod.fst).zip (c2.map Prod.snd)) := by
        simp [loadPretrainedStateDict, hlen.trans hlen2]
      rw [e1, e2, hvals]
  · intro hlen
    simp [loadPretrainedStateDict, hlen]

/-- Witness for C9: equal counts load positionally (checkpoint keys `x`, `y`
ignored); a length mismatch errors. -/
theorem pretrained_load_positional_witness :
    ([("a", (1 : ℚ)), ("b", 2)].length = [("x", (10 : ℚ)), ("y", 20)].length ∧
      loadPretrainedStateDict [("a", 1), ("b", 2)] [("x", 10), ("y", 20)] =
        .ok [("a", 10), ("b", 20)]) ∧
    ([("a", (1 : ℚ))].length ≠ [("x", (10 : ℚ)), ("y", 20)].length ∧
      loadPretrainedStateDict [("a", 1)] [("x", 10), ("y", 20)] =
        .error "Model parameter length invalid") := by
  constructor
  · refine ⟨by decide, ?_⟩
    have h := ((pretrained_load_positional [("a", 1), ("b", 2)] [("x", 10), ("y", 20)]
      [("x", 10), ("y", 20)]).1 (by decide)).1
    simpa using h
  · exact ⟨by decide, (pretrained_load_positional [("a", 1)] [("x", 10), ("y", 20)]
      [("x", 10), ("y", 20)]).2 (by decide)⟩

/-- Counterexample to C5 as stated: in a directory where the epoch-1 snapshot
file has a later creation time than the epoch-2 file,
`Trainer._select_snapshot` with method `latest` (which takes
`max(..., key=st_ctime)`) returns the epoch-1 snapshot even though a snapshot
with a higher epoch number exists. -/
theorem trainer_latest_by_ctime_counterexample :
    (trainer_select_latest ctimeDemoDir (by decide)).epochNum = 1 ∧
    ∃ s ∈ ctimeDemoDir,
      (trainer_select_latest ctimeDemoDir (by decide)).epochNum < s.epochNum := by
  decide

/-- C5 (amended): `SimlManager._select_snapshot` with method `latest` does
return the snapshot with the highest epoch number extracted from the
`snapshot_epoch_<N>` file name; the `Trainer._select_snapshot` variant instead
returns the file with the greatest ctime, which need not be the highest
epoch. -/
theorem manager_latest_highest_epoch (snaps : List SnapshotFile) (h : snaps ≠ []) :
    manager_select_latest snaps h ∈ snaps ∧
    ∀ s ∈ snaps, s.epochNum ≤ (manager_select_latest snaps h).epochNum := by
  match snaps, h with
  | a :: l, h =>
    have hm := pyMaxBy_mem (fun s => (s.epochNum : Int)) a l
    have hl := pyMaxBy_le (fun s => (s.epochNum : Int)) a l
    refine ⟨hm, ?_⟩
    intro s hs
    have := hl s hs
    exact_mod_cast this

/-- Witness for C5's amended theorem on a concrete directory. -/
theorem manager_latest_highest_epoch_witness :
    ([(⟨1, 10⟩ : SnapshotFile), ⟨3, 5⟩, ⟨2, 7⟩] ≠ ([] : List SnapshotFile)) ∧
    (manager_select_latest [⟨1, 10⟩, ⟨3, 5⟩, ⟨2, 7⟩] (by decide) ∈
        ([(⟨1, 10⟩ : SnapshotFile), ⟨3, 5⟩, ⟨2, 7⟩]) ∧
      ∀ s ∈ ([(⟨1, 10⟩ : SnapshotFile), ⟨3, 5⟩, ⟨2, 7⟩]), s.epochNum ≤
        (manager_select_latest [⟨1, 10⟩, ⟨3, 5⟩, ⟨2, 7⟩] (by decide)).epochNum) :=
  ⟨by decide, manager_latest_highest_epoch [⟨1, 10⟩, ⟨3, 5⟩, ⟨2, 7⟩] (by decide)⟩

/-- C6: `Trainer.train` returns `np.min(df['validation_loss'])` over the log
read back from disk: the returned value is a validation loss that occurs in
some row and is less than or equal to the validation loss of every row — the
minimum over the full logged history, not the final epoch's value. -/
theorem train_returns_min_validation_loss (rows : List LogRow) (h : rows ≠ []) :
    train_return rows h ∈ rows.map (fun r => r.validation_loss) ∧
    ∀ r ∈ rows, train_return rows h ≤ r.validation_loss := by
  match rows, h with
  | r :: rs, h =>
    have hspec := npMin_spec r.validation_loss (rs.map (fun x => x.validation_loss))
    have heq : (r :: rs).map (fun x => x.validation_loss) =
        r.validation_loss :: rs.map (fun x => x.validation_loss) := rfl
    refine ⟨?_, ?_⟩
    · rw [heq]
      exact hspec.1
    · intro row hrow
      refine hspec.2 _ ?_
      rw [← heq]
      exact List.mem_map_of_mem _ hrow

/-- Witness for C6: validation loss 1/10 at epoch 5 beats 3/10 at the final
epoch 10, and the returned value is bounded by both rows. -/
theorem train_returns_min_validation_loss_witness :
    ([(⟨5, 1, 1/10, 0⟩ : LogRow), ⟨10, 1, 3/10, 0⟩] ≠ ([] : List LogRow)) ∧
    (train_return [⟨5, 1, 1/10, 0⟩, ⟨10, 1, 3/10, 0⟩] (by decide) ∈
        ([(⟨5, 1, 1/10, 0⟩ : LogRow), ⟨10, 1, 3/10, 0⟩]).map (fun r => r.validation_loss) ∧
      ∀ r ∈ ([(⟨5, 1, 1/10, 0⟩ : LogRow), ⟨10, 1, 3/10, 0⟩]),
        train_return [⟨5, 1, 1/10, 0⟩, ⟨10, 1, 3/10, 0⟩] (by decide) ≤ r.validation_loss) :=
  ⟨by decide, train_returns_min_validation_loss [⟨5, 1, 1/10, 0⟩, ⟨10, 1, 3/10, 0⟩] (by decide)⟩

/-- C7: constructing a `CoreLossCalculator` succeeds exactly when every
assigned loss name is a key of the registered table (built-in `mse` updated
with the user-supplied dictionary); otherwise construction fails — before any
loss evaluation — with `ValueError("Unknown loss function name: <NAME>")` for
an offending assigned name. -/
theorem core_loss_calculator_checks_names (loss_names : List String)
    (user_loss_function_dic : Option (List (String × LossFn))) :
    (mkCoreLossCalculator loss_names user_loss_function_dic =
        .ok (loss_names, createLossFunctionDict user_loss_function_dic) ↔
      ∀ n ∈ loss_names, n ∈ (createLossFunctionDict user_loss_function_dic).map Prod.fst) ∧
    ((∃ n ∈ loss_names, n ∉ (createLossFunctionDict user_loss_function_dic).map Prod.fst) →
      ∃ n ∈ loss_names,
        n ∉ (createLossFunctionDict user_loss_function_dic).map Prod.fst ∧
        mkCoreLossCalculator loss_names user_loss_function_dic =
          .error ("Unknown loss function name: " ++ n)) := by
  constructor
  · constructor
    · intro hok
      rw [← checkLossFunctions_ok_iff]
      rw [mkCoreLossCalculator] at hok
      rcases hcheck : checkLossFunctions loss_names
          (createLossFunctionDict user_loss_function_dic) with e | u
      · rw [hcheck] at hok
        cases hok
      · cases u
        rfl
    · intro hall
      rw [mkCoreLossCalculator]
      rw [← checkLossFunctions_ok_iff] at hall
      rw [hall]
  · intro hmiss
    obtain ⟨n, hn, hnot, herr⟩ := checkLossFunctions_error loss_names _ hmiss
    refine ⟨n, hn, hnot, ?_⟩
    rw [mkCoreLossCalculator, herr]

/-- Witness for C7: construction with names `["mse"]` succeeds against the
built-in table, while assigning the unregistered name `funky` fails at
construction with the exact message. -/
theorem core_loss_calculator_checks_names_witness :
    (mkCoreLossCalculator ["mse"] none = .ok (["mse"], createLossFunctionDict none)) ∧
    ∃ n ∈ ["mse", "funky"],
      n ∉ (createLossFunctionDict none).map Prod.fst ∧
      mkCoreLossCalculator ["mse", "funky"] none =
        .error ("Unknown loss function name: " ++ n) :=
  ⟨(core_loss_calculator_checks_names ["mse"] none).1.mpr (by decide),
    (core_loss_calculator_checks_names ["mse", "funky"] none).2
      ⟨"funky", by decide, by decide⟩⟩

/-- C10: `IsoAMScaler.transform` never divides by zero: when `std_ = 0` the
scale factor is `0` and the transform returns the zero array; division by
`std_` happens only when `std_ ≠ 0`, in which case every entry is multiplied by
`1 / std_`. -/
theorem isoam_transform_zero_guard (s : IsoAMScaler) (data : List ℚ) :
    (s.std_ = 0 → s.transform data = data.map (fun _ => 0)) ∧
    (s.std_ ≠ 0 → s.transform data = data.map (fun x => x * (1 / s.std_))) := by
  constructor
  · intro h
    simp [IsoAMScaler.transform, h]
  · intro h
    simp [IsoAMScaler.transform, h]

/-- Witness for C10 at a freshly constructed scaler (whose `std_` is `0`):
the transform of `[3, 4]` is the zero array. -/
theorem isoam_transform_zero_guard_witness :
    mkIsoAMScaler ["y", "z"] =
      .ok { var_ := 0, std_ := 0, mean_square_ := 0, n_ := 0, component_dim := 3 } ∧
    IsoAMScaler.transform
      { var_ := 0, std_ := 0, mean_square_ := 0, n_ := 0, component_dim := 3 }
      [3, 4] = [0, 0] := by
  refine ⟨rfl, ?_⟩
  have h := (isoam_transform_zero_guard
    { var_ := 0, std_ := 0, mean_square_ := 0, n_ := 0, component_dim := 3 }
    [3, 4]).1 rfl
  simpa using h

/-- C8: the retry loop in `PreprocessConverter.lazy_read_files` is bounded:
if every attempt leaves the scaler erroneous, the call raises
`ValueError('Retry exhausted. Check the data.')` after at most
`MAX_RETRY = 3` retries, and any successful run performed at most `MAX_RETRY`
retries.  Totality of `lazy_read_files` is the termination of the recursion. -/
theorem lazy_read_files_retry_bounded (erroneous : Nat → Bool)
    (hall : ∀ k, k ≤ PreprocessConverter.MAX_RETRY → erroneous k = true) :
    lazy_read_files erroneous 0 = .error "Retry exhausted. Check the data." ∧
    (∀ k r, k ≤ PreprocessConverter.MAX_RETRY →
      lazy_read_files erroneous k = .ok r → r ≤ PreprocessConverter.MAX_RETRY) := by
  constructor
  · have h0 := hall 0 (by decide)
    have h1 := hall 1 (by decide)
    have h2 := hall 2 (by decide)
    have h3 := hall 3 (by decide)
    rw [lazy_read_files, h0]
    rw [lazy_read_files, h1]
    rw [lazy_read_files, h2]
    rw [lazy_read_files, h3]
    simp [PreprocessConverter.MAX_RETRY]
  · intro k r hk h
    clear hall
    have hM : PreprocessConverter.MAX_RETRY = 3 := rfl
    rw [hM] at hk ⊢
    obtain ⟨fuel, hfuel⟩ : ∃ fuel, 4 - k = fuel := ⟨4 - k, rfl⟩
    induction fuel using Nat.strong_induction_on generalizing k with
    | _ fuel ih =>
      rw [lazy_read_files] at h
      by_cases he : erroneous k = true
      · rw [he] at h
        simp only [if_true] at h
        by_cases hlt : k < PreprocessConverter.MAX_RETRY
        · rw [dif_pos hlt] at h
          rw [hM] at hlt
          exact ih (4 - (k + 1)) (by omega) (k + 1) (by omega) h rfl
        · rw [dif_neg hlt] at h
          cases h
      · rw [Bool.not_eq_true] at he
        rw [he] at h
        simp only [Bool.false_eq_true, if_false] at h
        cases h
        exact hk

/-- Witness for C8: with every fit attempt erroneous, the loop raises the
exhaustion error. -/
theorem lazy_read_files_retry_bounded_witness :
    lazy_read_files (fun _ => true) 0 = .error "Retry exhausted. Check the data." :=
  (lazy_read_files_retry_bounded (fun _ => true) (fun _ _ => rfl)).1

theorem flatten_single (xs : List ℚ) : ([xs] : List (List ℚ)).flatten = xs := by
  simp

theorem mat_getD_take (F : Nat) (mat : List (List ℚ)) (h1 : mat.length = 1)
    (hF : ∀ row ∈ mat, row.length = F) : (mat.getD 0 []).take F = mat.flatten := by
  obtain ⟨row, rfl⟩ := List.length_eq_one.mp h1
  have hr : row.length = F := hF row (List.mem_cons_self _ _)
  have h2 : ([row] : List (List ℚ)).getD 0 [] = row := rfl
  rw [h2, ← hr, List.take_length]
  simp

theorem timeSliceTrainer_full (T F : Nat) (t : Tensor3) (h : Rect3 T 1 F t) :
    timeSliceTrainer t 0 (T, F) = flatten3 t := by
  obtain ⟨hT, hmat⟩ := h
  unfold timeSliceTrainer flatten3
  have htake : t.take T = t := by
    rw [← hT]
    exact List.take_length t
  rw [htake]
  congr 1
  apply List.map_congr_left
  intro mat hm
  exact mat_getD_take F mat (hmat mat hm).1 (hmat mat hm).2

theorem takeDim1_full (T N F : Nat) (t : Tensor3) (h : Rect3 T N F t) :
    takeDim1 t 0 N = t := by
  obtain ⟨hT, hmat⟩ := h
  unfold takeDim1
  have hrow : ∀ mat ∈ t, (mat.drop 0).take N = mat := by
    intro mat hm
    rw [List.drop_zero, ← (hmat mat hm).1, List.take_length]
  rw [List.map_congr_left hrow, List.map_id']

/-- C1: on a single-sample batch with no actual padding (the `original_shapes`
entry equals the tensor's true extents), the padded time-series loss path
equals the plain no-padding path — exactly over the rationals, hence a
fortiori within the floating-point tolerance 1e-5.  This holds both for the
pair in `Trainer._create_loss_function` (middle dimension = batch of size 1,
shapes entry `(T, F)`) and for the pair in `LossCalculator` (middle dimension
= the sample's `N` node slices, shapes entry `(T, N)`). -/
theorem padding_invariance_single_sample (T N F : Nat) (y_pred y : Tensor3)
    (hp : Rect3 T N F y_pred) (hy : Rect3 T N F y) :
    (N = 1 →
      loss_function_time_with_padding y_pred y [(T, F)] =
        loss_function_without_padding y_pred y ∧
      |loss_function_time_with_padding y_pred y [(T, F)] -
        loss_function_without_padding y_pred y| ≤ 1 / 100000) ∧
    LossCalculator_loss_function_time_with_padding y_pred y [(T, N)] =
      LossCalculator_loss_function_without_padding y_pred y ∧
    |LossCalculator_loss_function_time_with_padding y_pred y [(T, N)] -
      LossCalculator_loss_function_without_padding y_pred y| ≤ 1 / 100000 := by
  have habs : ∀ q : ℚ, |q - q| ≤ 1 / 100000 := by
    intro q
    rw [sub_self, abs_zero]
    norm_num
  have htp : y_pred.take T = y_pred := by
    rw [← hp.1]
    exact List.take_length _
  have hty : y.take T = y := by
    rw [← hy.1]
    exact List.take_length _
  constructor
  · intro hN
    subst hN
    have e1 : loss_function_time_with_padding y_pred y [(T, F)] =
        loss_function_without_padding y_pred y := by
      unfold loss_function_time_with_padding loss_function_without_padding
      have henum : ([(T, F)] : List (Nat × Nat)).enum = [(0, (T, F))] := rfl
      rw [henum]
      simp only [List.map_cons, List.map_nil]
      rw [flatten_single, flatten_single]
      rw [timeSliceTrainer_full T F y_pred hp, timeSliceTrainer_full T F y hy]
    exact ⟨e1, e1 ▸ habs _⟩
  · have hsp : splitDim1 y_pred ([(T, N)].map Prod.snd) = [y_pred] := by
      show takeDim1 y_pred 0 N :: splitDim1Go y_pred (0 + N) [] = [y_pred]
      rw [takeDim1_full T N F y_pred hp]
      rfl
    have hsy : splitDim1 y ([(T, N)].map Prod.snd) = [y] := by
      show takeDim1 y 0 N :: splitDim1Go y (0 + N) [] = [y]
      rw [takeDim1_full T N F y hy]
      rfl
    have e2 : LossCalculator_loss_function_time_with_padding y_pred y [(T, N)] =
        LossCalculator_loss_function_without_padding y_pred y := by
      show mseLoss
        (((([(T, N)].map Prod.fst).zip
            (splitDim1 y_pred ([(T, N)].map Prod.snd))).map
          (fun p => flatten3 (p.2.take p.1))).flatten)
        (((([(T, N)].map Prod.fst).zip
            (splitDim1 y ([(T, N)].map Prod.snd))).map
          (fun p => flatten3 (p.2.take p.1))).flatten) =
        mseLoss (flatten3 y_pred) (flatten3 y)
      rw [hsp, hsy]
      simp only [List.map_cons, List.map_nil, List.zip_cons_cons, List.zip_nil_right]
      rw [flatten_single, flatten_single, htp, hty]
    exact ⟨e2, e2 ▸ habs _⟩

/-- Witness for C1 on a concrete `2 × 1 × 2` batch. -/
theorem padding_invariance_single_sample_witness :
    Rect3 2 1 2 [[[1, 2]], [[3, 4]]] ∧ Rect3 2 1 2 [[[0, 2]], [[3, 6]]] ∧
    loss_function_time_with_padding [[[1, 2]], [[3, 4]]] [[[0, 2]], [[3, 6]]] [(2, 2)] =
      loss_function_without_padding [[[1, 2]], [[3, 4]]] [[[0, 2]], [[3, 6]]] ∧
    LossCalculator_loss_function_time_with_padding
        [[[1, 2]], [[3, 4]]] [[[0, 2]], [[3, 6]]] [(2, 1)] =
      LossCalculator_loss_function_without_padding
        [[[1, 2]], [[3, 4]]] [[[0, 2]], [[3, 6]]] :=
  ⟨by decide, by decide,
    ((padding_invariance_single_sample 2 1 2 [[[1, 2]], [[3, 4]]] [[[0, 2]], [[3, 6]]]
      (by decide) (by decide)).1 rfl).1,
    (padding_invariance_single_sample 2 1 2 [[[1, 2]], [[3, 4]]] [[[0, 2]], [[3, 6]]]
      (by decide) (by decide)).2.1⟩

theorem blockEdge_mem_names (specs : List BlockSpec) (a b : String)
    (h : blockEdge specs a b) : a ∈ specs.map (fun x => x.name) := by
  simp only [blockEdge, blockEdgeB, List.any_eq_true, Bool.and_eq_true,
    beq_iff_eq] at h
  obtain ⟨p, hp, hpa, -⟩ := h
  exact hpa ▸ List.mem_map_of_mem _ hp

theorem blockEdge_succ (specs : List BlockSpec)
    (hnd : (specs.map (fun x => x.name)).Nodup) (a b : String)
    (h : blockEdge specs a b) : b ∈ succNames specs a := by
  simp only [blockEdge, blockEdgeB, List.any_eq_true, Bool.and_eq_true,
    beq_iff_eq] at h
  obtain ⟨p, hp, hpa, c, hc, hcb, hcon⟩ := h
  cases hq : specs.find? (fun x => x.name == a) with
  | none =>
    exfalso
    have hnone := List.find?_eq_none.mp hq p hp
    simp [hpa] at hnone
  | some q =>
    have hqmem : q ∈ specs := List.mem_of_find?_eq_some hq
    have hqa : q.name = a := by
      have hh := List.find?_some hq
      simpa using hh
    have hqp : q = p :=
      (List.inj_on_of_nodup_map hnd) hqmem hp (by rw [hqa, hpa])
    unfold succNames
    rw [hq]
    have hcf : c ∈ specs.filter (fun x => x.input_names.contains q.output_name) :=
      List.mem_filter.mpr ⟨hc, by rw [hqp]; exact hcon⟩
    exact hcb ▸ List.mem_map_of_mem _ hcf

theorem darkSorted_decomp (specs : List BlockSpec) :
    ∀ (l₁ l₂ : List String) (u : String),
      DarkSorted specs (l₁ ++ u :: l₂) → ∀ v ∈ succNames specs u, v ∈ l₂ := by
  intro l₁
  induction l₁ with
  | nil =>
    intro l₂ u h v hv
    exact h.1 v hv
  | cons w l₁ ih =>
    intro l₂ u h v hv
    exact ih l₂ u h.2 v hv

theorem visitStep_inv (specs : List BlockSpec) (gray : List String)
    (f : String → List String → Except String (List String))
    (hf : ∀ v b b', f v b = .ok b' → BlackInv specs gray b →
      (∃ pre, b' = pre ++ b) ∧ BlackInv specs gray b' ∧ v ∈ b') :
    ∀ vs black black', visitStep f vs black = .ok black' →
      BlackInv specs gray black →
      (∃ pre, black' = pre ++ black) ∧ BlackInv specs gray black' ∧
        ∀ v ∈ vs, v ∈ black' := by
  intro vs
  induction vs with
  | nil =>
    intro black black' h hinv
    have hbb : black = black' := by
      simpa [visitStep] using h
    subst hbb
    exact ⟨⟨[], rfl⟩, hinv, by simp⟩
  | cons v vs ih =>
    intro black black' h hinv
    simp only [visitStep] at h
    cases hf1 : f v black with
    | error e =>
      rw [hf1] at h
      exact Except.noConfusion h
    | ok b2 =>
      rw [hf1] at h
      obtain ⟨⟨pre1, hpre1⟩, hinv2, hv⟩ := hf v black b2 hf1 hinv
      obtain ⟨⟨pre2, hpre2⟩, hinv3, hvs⟩ := ih b2 black' h hinv2
      refine ⟨⟨pre2 ++ pre1, by rw [hpre2, hpre1, List.append_assoc]⟩, hinv3, ?_⟩
      intro w hw
      rcases List.mem_cons.mp hw with rfl | hw'
      · rw [hpre2]
        exact List.mem_append_right _ hv
      · exact hvs w hw'

theorem visitBlock_inv (specs : List BlockSpec) :
    ∀ fuel u gray black black',
      visitBlock specs fuel u gray black = .ok black' →
      BlackInv specs gray black →
      (∃ pre, black' = pre ++ black) ∧ BlackInv specs gray black' ∧ u ∈ black' := by
  intro fuel
  induction fuel with
  | zero =>
    intro u gray black black' h hinv
    simp only [visitBlock] at h
    by_cases hb : u ∈ black
    · rw [if_pos hb] at h
      have hbb : black = black' := by simpa using h
      subst hbb
      exact ⟨⟨[], rfl⟩, hinv, hb⟩
    · rw [if_neg hb] at h
      exact Except.noConfusion h
  | succ fuel ih =>
    intro u gray black black' h hinv
    simp only [visitBlock] at h
    by_cases hb : u ∈ black
    · rw [if_pos hb] at h
      have hbb : black = black' := by simpa using h
      subst hbb
      exact ⟨⟨[], rfl⟩, hinv, hb⟩
    · rw [if_neg hb] at h
      by_cases hg : u ∈ gray
      · rw [if_pos hg] at h
        exact Except.noConfusion h
      · rw [if_neg hg] at h
        cases hrun : visitStep (fun v b => visitBlock specs fuel v (u :: gray) b)
            (succNames specs u) black with
        | error e =>
          rw [hrun] at h
          exact Except.noConfusion h
        | ok black2 =>
          rw [hrun] at h
          have hbb : black' = u :: black2 := by
            have hh : Except.ok (ε := String) (u :: black2) = .ok black' := h
            simpa using hh.symm
          subst hbb
          have hinv' : BlackInv specs (u :: gray) black := by
            refine ⟨?_, hinv.2.1, hinv.2.2⟩
            intro g hgmem
            rcases List.mem_cons.mp hgmem with rfl | hgm
            · exact hb
            · exact hinv.1 g hgm
          obtain ⟨⟨pre, hpre⟩, ⟨hgray2, hnd2, hds2⟩, hsucc⟩ :=
            visitStep_inv specs (u :: gray)
              (fun v b => visitBlock specs fuel v (u :: gray) b)
              (fun v b b' hvb hgb => ih v (u :: gray) b b' hvb hgb)
              (succNames specs u) black black2 hrun hinv'
          have hu2 : u ∉ black2 := hgray2 u (List.mem_cons_self _ _)
          refine ⟨⟨u :: pre, by rw [hpre]; rfl⟩, ⟨?_, ?_, ?_⟩, List.mem_cons_self _ _⟩
          · intro g hgmem
            rw [List.mem_cons, not_or]
            refine ⟨?_, hgray2 g (List.mem_cons_of_mem _ hgmem)⟩
            intro he
            exact hg (he ▸ hgmem)
          · exact List.nodup_cons.mpr ⟨hu2, hnd2⟩
          · exact ⟨hsucc, hds2⟩

theorem visitStep_error
    (f : String → List String → Except String (List String))
    (hf : ∀ v b e, f v b = .error e → e = "Cycle found in the network") :
    ∀ vs black e, visitStep f vs black = .error e →
      e = "Cycle found in the network" := by
  intro vs
  induction vs with
  | nil =>
    intro black e h
    simp [visitStep] at h
  | cons v vs ih =>
    intro black e h
    simp only [visitStep] at h
    cases hf1 : f v black with
    | error e' =>
      rw [hf1] at h
      have hee : e' = e := by simpa using h
      exact hee ▸ hf v black e' hf1
    | ok b2 =>
      rw [hf1] at h
      exact ih b2 e h

theorem visitBlock_error (specs : List BlockSpec) :
    ∀ fuel u gray black e, visitBlock specs fuel u gray black = .error e →
      e = "Cycle found in the network" := by
  intro fuel
  induction fuel with
  | zero =>
    intro u gray black e h
    simp only [visitBlock] at h
    by_cases hb : u ∈ black
    · rw [if_pos hb] at h
      exact Except.noConfusion h
    · rw [if_neg hb] at h
      have hee : "Cycle found in the network" = e := by simpa using h
      exact hee.symm
  | succ fuel ih =>
    intro u gray black e h
    simp only [visitBlock] at h
    by_cases hb : u ∈ black
    · rw [if_pos hb] at h
      exact Except.noConfusion h
    · rw [if_neg hb] at h
      by_cases hg : u ∈ gray
      · rw [if_pos hg] at h
        have hee : "Cycle found in the network" = e := by simpa using h
        exact hee.symm
      · rw [if_neg hg] at h
        cases hrun : visitStep (fun v b => visitBlock specs fuel v (u :: gray) b)
            (succNames specs u) black with
        | error e' =>
          rw [hrun] at h
          have hee : e' = e := by simpa using h
          exact hee ▸ visitStep_error _
            (fun v b e0 hvb => ih v (u :: gray) b e0 hvb) _ _ _ hrun
        | ok black2 =>
          rw [hrun] at h
          exact Except.noConfusion h

theorem transGen_first_edge {r : String → String → Prop} {a b : String}
    (h : Relation.TransGen r a b) : ∃ c, r a c := by
  induction h with
  | single hab => exact ⟨_, hab⟩
  | tail _ _ ih => exact ih

theorem transGen_mem_later (specs : List BlockSpec)
    (hnd : (specs.map (fun x => x.name)).Nodup) (l : List String)
    (hds : DarkSorted specs l) (a b : String)
    (h : Relation.TransGen (blockEdge specs) a b) :
    ∀ l₁ l₂, l = l₁ ++ a :: l₂ → b ∈ l₂ := by
  induction h with
  | single hab =>
    intro l₁ l₂ hl
    exact darkSorted_decomp specs l₁ l₂ a (hl ▸ hds) _
      (blockEdge_succ specs hnd a _ hab)
  | tail hmid hedge ih =>
    next mid c =>
      intro l₁ l₂ hl
      have hm : mid ∈ l₂ := ih l₁ l₂ hl
      obtain ⟨p, q, hpq⟩ := List.append_of_mem hm
      have hl' : l = (l₁ ++ a :: p) ++ mid :: q := by
        rw [hl, hpq]
        simp
      have hq : c ∈ q :=
        darkSorted_decomp specs (l₁ ++ a :: p) q mid (hl' ▸ hds) c
          (blockEdge_succ specs hnd mid c hedge)
      rw [hpq]
      exact List.mem_append_right _ (List.mem_cons_of_mem _ hq)

theorem checkCycle_ok_props (specs : List BlockSpec) (black' : List String)
    (h : checkNetworkCycle specs = .ok black') :
    black'.Nodup ∧ DarkSorted specs black' ∧
      ∀ n ∈ specs.map (fun x => x.name), n ∈ black' := by
  have hinv0 : BlackInv specs [] [] := ⟨by simp, List.nodup_nil, trivial⟩
  rw [checkNetworkCycle] at h
  obtain ⟨-, ⟨-, hnd2, hds⟩, hall⟩ :=
    visitStep_inv specs []
      (fun v b => visitBlock specs (specs.length + 1) v [] b)
      (fun v b b' hvb hgb => visitBlock_inv specs (specs.length + 1) v [] b b' hvb hgb)
      (specs.map (fun x => x.name)) [] black' h hinv0
  exact ⟨hnd2, hds, hall⟩

/-- C2: for any block-specification list whose `input_names`/`output_name`
references form a directed cycle (a nonempty edge path from some block back to
itself), the graph build fails with the `ValueError` message
"Cycle found in the network" (test pinned by
`test_raise_valueerror_when_network_is_not_dag`).  Block names are unique per
the BlockSpec data-model invariant. -/
theorem cycle_detection_error (specs : List BlockSpec)
    (hnd : (specs.map (fun x => x.name)).Nodup) (u : String)
    (hcyc : Relation.TransGen (blockEdge specs) u u) :
    checkNetworkCycle specs = .error "Cycle found in the network" := by
  cases hres : checkNetworkCycle specs with
  | ok black' =>
    exfalso
    obtain ⟨hnd2, hds, hall⟩ := checkCycle_ok_props specs black' hres
    obtain ⟨c, hd⟩ := transGen_first_edge hcyc
    have humem : u ∈ black' := hall u (blockEdge_mem_names specs u c hd)
    obtain ⟨l₁, l₂, hdec⟩ := List.append_of_mem humem
    have hu2 : u ∈ l₂ := transGen_mem_later specs hnd black' hds u u hcyc l₁ l₂ hdec
    rw [hdec] at hnd2
    have h3 : (u :: l₂).Nodup := hnd2.of_append_right
    exact (List.nodup_cons.mp h3).1 hu2
  | error e =>
    have hee : e = "Cycle found in the network" :=
      visitStep_error _
        (fun v b e0 hvb => visitBlock_error specs (specs.length + 1) v [] b e0 hvb)
        _ _ _ hres
    exact congrArg Except.error hee

/-- Witness for C2: the two-block cycle `A ↔ B` makes the build fail with the
pinned message. -/
theorem cycle_detection_error_witness :
    (cyclePairSpecs.map (fun x => x.name)).Nodup ∧
    checkNetworkCycle cyclePairSpecs = .error "Cycle found in the network" :=
  ⟨by decide,
    cycle_detection_error cyclePairSpecs (by decide) "A"
      (Relation.TransGen.tail
        (Relation.TransGen.single
          (show blockEdge cyclePairSpecs "A" "B" from
            (by decide : blockEdgeB cyclePairSpecs "A" "B" = true)))
        (show blockEdge cyclePairSpecs "B" "A" from
          (by decide : blockEdgeB cyclePairSpecs "B" "A" = true)))⟩
